import Mathlib

/-!
Shallow embedding of the ag3tools core (tool registry + execution engine +
LLM cost instrumentation + cost logger) and proofs about it.

Sources embedded:
- ag3tools/core/llm_instrumentation.py : capture scopes over contextvars
  (start_capture, stop_capture, the token-recording part of _wrapped_create).
- ag3tools/core/registry.py : get_tool_spec, invoke_tool,
  _execute_with_llm_tracking, _log_llm_costs.
- ag3tools/core/cost.py : log_cost, estimate_openai_cost,
  get_tool_cost_stats, list_recent_tool_usage.

Modelling conventions:
- A Python dict with insertion order is an association list; assignment to an
  existing key keeps its position, a new key is appended.
- The two ContextVars are a pair of Option fields: token (None = the variable
  was never set in this context; reading it then yields a fresh empty dict
  whose mutation is dropped) and prev (default None).
- Exceptions are an inductive PyErr value carried in Except / Option.
- Disk writes in log_cost are represented by an appended event list plus a
  failure oracle (logFail) standing for the possibility that the append raises
  an IO error; estimate pricing is ℚ instead of float so the arithmetic is
  exact.
- Ghost counters (starts, stops, implCalls) count how many times
  start_capture, stop_capture and the tool implementation run; they change
  exactly where the Python code performs those calls.
-/

namespace Ag3

/-! ## Token scopes (Python dict model → (input_tokens, output_tokens)) -/

abbrev Scope := List (String × Nat × Nat)

/-- Python dict lookup agg.get(m). -/
def scopeGet (s : Scope) (m : String) : Option (Nat × Nat) :=
  (s.find? (fun p => p.1 = m)).map (fun p => p.2)

/-- Python dict assignment agg[m] = v : overwrite in place or append. -/
def scopeSet (s : Scope) (m : String) (v : Nat × Nat) : Scope :=
  if s.any (fun p => p.1 = m) then
    s.map (fun p => if p.1 = m then (m, v) else p)
  else s ++ [(m, v)]

/-- The aggregation step of _wrapped_create:
cur_in, cur_out = agg.get(model, (0, 0)); agg[model] = (cur_in+in_t, cur_out+out_t). -/
def scopeAdd (s : Scope) (m : String) (it ot : Nat) : Scope :=
  let cur := (scopeGet s m).getD (0, 0)
  scopeSet s m (cur.1 + it, cur.2 + ot)

/-! ## Per-logical-task instrumentation context (the two ContextVars) -/

structure Ctx where
  token : Option Scope
  prev : Option Scope
deriving DecidableEq, Repr

/-- _get_agg(): _token_context.get({}) — an unset variable reads as empty. -/
def getAgg (c : Ctx) : Scope := c.token.getD []

/-- start_capture():
current = _token_context.get({});
_prev_context.set(current if current else None);
_token_context.set({}). -/
def startCapture (c : Ctx) : Ctx :=
  let current := getAgg c
  { token := some [], prev := if current.isEmpty then none else some current }

/-- stop_capture():
agg = _token_context.get({}); prev = _prev_context.get(None);
_token_context.set(prev or {}); _prev_context.set(None); return agg. -/
def stopCapture (c : Ctx) : Scope × Ctx :=
  (getAgg c, { token := some (c.prev.getD []), prev := none })

/-- The token-recording effect of _wrapped_create on the current context.
If the token ContextVar is unset, _get_agg() hands back a fresh default dict,
so the mutation is dropped. -/
def recordUsage (c : Ctx) (m : String) (it ot : Nat) : Ctx :=
  match c.token with
  | none => c
  | some s => { c with token := some (scopeAdd s m it ot) }

/-! ## Traces of instrumentation operations

One logical task issues start / record / stop operations; concurrent tasks
interleave their operations while contextvars keeps one Ctx per task (each OS
thread has its own context, and each cooperative task runs set operations in
its own context copy; every invocation installs a fresh scope dict via its own
start_capture, so its records and stop act on its task's Ctx only). -/

inductive TOp where
  | start : TOp
  | record : String → Nat → Nat → TOp
  | stop : TOp
deriving DecidableEq, Repr

def applyTOp (c : Ctx) : TOp → Ctx
  | .start => startCapture c
  | .record m it ot => recordUsage c m it ot
  | .stop => (stopCapture c).2

/-- Run a single task's operation list, collecting the value returned by each
stop_capture in order. -/
def runLOuts : List TOp → Ctx → Ctx × List Scope
  | [], c => (c, [])
  | .stop :: ops, c =>
      let r := stopCapture c
      let rest := runLOuts ops r.2
      (rest.1, r.1 :: rest.2)
  | op :: ops, c => runLOuts ops (applyTOp c op)

/-- State transitions only (stop return values dropped). -/
def runL (ops : List TOp) (c : Ctx) : Ctx := (runLOuts ops c).1

/-- The process: one instrumentation context per logical task. -/
abbrev Global := Nat → Ctx

def updateG (g : Global) (t : Nat) (c : Ctx) : Global :=
  fun u => if u = t then c else g u

/-- Run an interleaved trace of (task, operation) steps; each step acts on its
own task's context (the contextvars isolation semantics), collecting every
stop_capture return value tagged with the task that performed it. -/
def runG : List (Nat × TOp) → Global → Global × List (Nat × Scope)
  | [], g => (g, [])
  | (t, .stop) :: tr, g =>
      let r := stopCapture (g t)
      let rest := runG tr (updateG g t r.2)
      (rest.1, (t, r.1) :: rest.2)
  | (t, op) :: tr, g => runG tr (updateG g t (applyTOp (g t) op))

/-- The subsequence of operations task t performed. -/
def projOps (t : Nat) (tr : List (Nat × TOp)) : List TOp :=
  tr.filterMap (fun e => if e.1 = t then some e.2 else none)

/-- The stop_capture results task t received. -/
def outsFor (t : Nat) (outs : List (Nat × Scope)) : List Scope :=
  outs.filterMap (fun e => if e.1 = t then some e.2 else none)

/-- The record operations an implementation performs, as a trace fragment. -/
def recordOps (rs : List (String × Nat × Nat)) : List TOp :=
  rs.map (fun r => TOp.record r.1 r.2.1 r.2.2)

/-- Accumulate a record list into a scope. -/
def aggAppend (s : Scope) (rs : List (String × Nat × Nat)) : Scope :=
  rs.foldl (fun a r => scopeAdd a r.1 r.2.1 r.2.2) s

/-- The scope accumulated from a record list alone. -/
def aggOf (rs : List (String × Nat × Nat)) : Scope := aggAppend [] rs

/-! ### Trace lemmas -/

theorem runLOuts_append (xs ys : List TOp) (c : Ctx) :
    runLOuts (xs ++ ys) c =
      ((runLOuts ys (runLOuts xs c).1).1,
        (runLOuts xs c).2 ++ (runLOuts ys (runLOuts xs c).1).2) := by
  induction xs generalizing c with
  | nil => simp [runLOuts]
  | cons op ops ih =>
      cases op with
      | start => simp [runLOuts, ih]
      | record m it ot => simp [runLOuts, ih]
      | stop => simp [runLOuts, ih]

theorem runLOuts_records (rs : List (String × Nat × Nat)) (s : Scope) (p : Option Scope) :
    runLOuts (recordOps rs) ⟨some s, p⟩ = (⟨some (aggAppend s rs), p⟩, []) := by
  induction rs generalizing s with
  | nil => simp [recordOps, runLOuts, aggAppend]
  | cons r rs ih =>
      simp only [recordOps, List.map_cons, runLOuts, applyTOp, recordUsage]
      simpa [recordOps, aggAppend] using ih (scopeAdd s r.1 r.2.1 r.2.2)

theorem runLOuts_start (ops : List TOp) (c : Ctx) :
    runLOuts (TOp.start :: ops) c = runLOuts ops (startCapture c) := by
  simp [runLOuts, applyTOp]

theorem runLOuts_stop_then (ops : List TOp) (c : Ctx) :
    runLOuts (TOp.stop :: ops) c
      = ((runLOuts ops ⟨some (c.prev.getD []), none⟩).1,
          getAgg c :: (runLOuts ops ⟨some (c.prev.getD []), none⟩).2) := by
  simp [runLOuts, stopCapture]

theorem runLOuts_records_then (rs : List (String × Nat × Nat)) (ops : List TOp)
    (s : Scope) (pv : Option Scope) :
    runLOuts (recordOps rs ++ ops) ⟨some s, pv⟩ = runLOuts ops ⟨some (aggAppend s rs), pv⟩ := by
  rw [runLOuts_append, runLOuts_records]
  simp

/-- The scope start_capture saves restores to the scope that was current. -/
theorem prevSave_getD (s : Scope) : (if s.isEmpty then none else some s).getD [] = s := by
  cases s <;> simp

/-- Steps of other tasks never touch task t's context, and t's stop results in
an interleaved run are exactly the stop results of running t's own operation
subsequence alone: per-task projection of the global semantics. -/
theorem runG_proj (t : Nat) (tr : List (Nat × TOp)) (g : Global) :
    (runG tr g).1 t = (runLOuts (projOps t tr) (g t)).1 ∧
    outsFor t (runG tr g).2 = (runLOuts (projOps t tr) (g t)).2 := by
  induction tr generalizing g with
  | nil => simp [runG, projOps, runLOuts, outsFor]
  | cons e tr ih =>
      obtain ⟨u, op⟩ := e
      by_cases hu : u = t
      · subst hu
        cases op with
        | start =>
            simpa [runG, projOps, outsFor, runLOuts, updateG]
              using ih (updateG g u (applyTOp (g u) .start))
        | record m it ot =>
            simpa [runG, projOps, outsFor, runLOuts, updateG]
              using ih (updateG g u (applyTOp (g u) (.record m it ot)))
        | stop =>
            have h := ih (updateG g u (stopCapture (g u)).2)
            simp [runG, projOps, outsFor, runLOuts, updateG] at h ⊢
            exact ⟨h.1, h.2⟩
      · cases op with
        | start =>
            have h := ih (updateG g u (applyTOp (g u) .start))
            simpa [runG, projOps, outsFor, updateG, hu, Ne.symm hu] using h
        | record m it ot =>
            have h := ih (updateG g u (applyTOp (g u) (.record m it ot)))
            simpa [runG, projOps, outsFor, updateG, hu, Ne.symm hu] using h
        | stop =>
            have h := ih (updateG g u (stopCapture (g u)).2)
            simpa [runG, projOps, outsFor, updateG, hu, Ne.symm hu] using h

/-- C2: in any interleaving of instrumentation operations by concurrent
logical tasks (threads or cooperative tasks, one context per task as
contextvars provides), a task whose own operations are one start_capture, a
list of completion-call token records, and one stop_capture receives from that
stop_capture exactly the aggregation of its own records — never counts of any
other task. -/
theorem llm_capture_isolation (tr : List (Nat × TOp)) (g : Global) (t : Nat)
    (rs : List (String × Nat × Nat))
    (hp : projOps t tr = TOp.start :: (recordOps rs ++ [TOp.stop])) :
    outsFor t (runG tr g).2 = [aggOf rs] := by
  have h := (runG_proj t tr g).2
  rw [hp, runLOuts_start] at h
  obtain ⟨pv, hpv⟩ : ∃ pv, startCapture (g t) = ⟨some [], pv⟩ := ⟨_, rfl⟩
  rw [hpv, runLOuts_records_then] at h
  rw [h]
  simp [runLOuts, stopCapture, getAgg, aggOf]

/-- C2 witness: two tasks interleaved, one recording (100, 50) and the other
(200, 75); each stop_capture returns only its own counts. -/
theorem llm_capture_isolation_witness :
    outsFor 1 (runG [(1, .start), (2, .start), (1, .record "m" 100 50),
        (2, .record "m" 200 75), (1, .stop), (2, .stop)] (fun _ => ⟨none, none⟩)).2
      = [[("m", 100, 50)]]
    ∧ outsFor 2 (runG [(1, .start), (2, .start), (1, .record "m" 100 50),
        (2, .record "m" 200 75), (1, .stop), (2, .stop)] (fun _ => ⟨none, none⟩)).2
      = [[("m", 200, 75)]] := by
  refine ⟨?_, ?_⟩
  · have h := llm_capture_isolation [(1, .start), (2, .start), (1, .record "m" 100 50),
      (2, .record "m" 200 75), (1, .stop), (2, .stop)] (fun _ => ⟨none, none⟩) 1
      [("m", 100, 50)] (by decide)
    rw [h]; decide
  · have h := llm_capture_isolation [(1, .start), (2, .start), (1, .record "m" 100 50),
      (2, .record "m" 200 75), (1, .stop), (2, .stop)] (fun _ => ⟨none, none⟩) 2
      [("m", 200, 75)] (by decide)
    rw [h]; decide

/-- C3 counterexample: after start; record (m,1,1); start; record (m,2,2);
start; stop; stop from a clean context, the active scope is empty, although the
scope active before the matching (second) start_capture was m ↦ (1,1): the
single saved-scope slot was overwritten by the third start_capture and cleared
by the first stop_capture, so restoration fails at nesting depth three. -/
theorem capture_restore_depth3_cex :
    getAgg (runL [TOp.start, TOp.record "m" 1 1] ⟨some [], none⟩) = [("m", 1, 1)] ∧
    getAgg (runL [TOp.start, TOp.record "m" 1 1, TOp.start, TOp.record "m" 2 2,
        TOp.start, TOp.stop, TOp.stop] ⟨some [], none⟩) = [] ∧
    ([] : Scope) ≠ [("m", 1, 1)] := by decide

/-- C3 (amended): start_capture begins a new empty scope and saves the scope
active before it in a single slot, and stop_capture returns the accumulated
counts and restores the saved slot. The round trip therefore restores the
active scope for a non-nested start/stop pair from any context, and for one
nested pair inside an outermost capture that began on an empty active scope —
but only a single saved scope exists (each stop_capture clears it), so
restoration fails from nesting depth three on (see the counterexample). -/
theorem capture_roundtrip_depth_le_two :
    (∀ (c : Ctx) (rs : List (String × Nat × Nat)),
      runLOuts (TOp.start :: (recordOps rs ++ [TOp.stop])) c
        = (⟨some (getAgg c), none⟩, [aggOf rs])) ∧
    (∀ (p : Option Scope) (rs1 rs2 rs3 : List (String × Nat × Nat)),
      runLOuts (TOp.start :: (recordOps rs1 ++
          (TOp.start :: (recordOps rs2 ++
            (TOp.stop :: (recordOps rs3 ++ [TOp.stop])))))) ⟨some [], p⟩
        = (⟨some [], none⟩, [aggOf rs2, aggAppend (aggOf rs1) rs3])) := by
  constructor
  · intro c rs
    rw [runLOuts_start]
    obtain ⟨pv, hpv, hgd⟩ :
        ∃ pv, startCapture c = ⟨some [], pv⟩ ∧ pv.getD [] = getAgg c :=
      ⟨_, rfl, prevSave_getD (getAgg c)⟩
    rw [hpv, runLOuts_records_then, runLOuts_stop_then]
    simp [runLOuts, getAgg, hgd, aggOf]
  · intro p rs1 rs2 rs3
    have h0 : startCapture ⟨some [], p⟩ = ⟨some [], none⟩ := rfl
    rw [runLOuts_start, h0, runLOuts_records_then, runLOuts_start]
    obtain ⟨pv, hpv, hgd⟩ :
        ∃ pv, startCapture ⟨some (aggAppend [] rs1), none⟩ = ⟨some [], pv⟩ ∧
          pv.getD [] = aggAppend [] rs1 :=
      ⟨_, rfl, prevSave_getD _⟩
    rw [hpv, runLOuts_records_then, runLOuts_stop_then]
    simp only [Ctx.prev, hgd]
    rw [runLOuts_records_then, runLOuts_stop_then]
    simp [runLOuts, getAgg, aggOf]

/-- C10 counterexample: after one balanced start_capture / stop_capture the
restored scope dict left in the token ContextVar is live, so a patched
completion call made with no capture active records into it (usage is not
dropped), and the next stop_capture — called when every started capture has
already been stopped — returns that non-empty mapping, not the empty one the
claim promises. Trace start; stop; record (m,5,5); stop from the fresh
context: the second stop returns m ↦ (5,5). -/
theorem stop_capture_inactive_cex :
    (runLOuts [TOp.start, TOp.stop, TOp.record "m" 5 5, TOp.stop] ⟨none, none⟩).2
      = [[], [("m", 5, 5)]]
    ∧ ([("m", 5, 5)] : Scope) ≠ ([] : Scope) := by decide

/-- C10 (amended): calling stop_capture in a task in which no capture is
active — states with the saved-scope slot clear, as holds initially and after
every balanced stop_capture (start_capture is the only writer of the slot and
every stop_capture clears it) — is total: it raises no error, returns the
current content of the task's active aggregation scope, and leaves the active
scope empty afterwards. That returned mapping is empty when no start_capture
was ever called in the task, but after a balanced start/stop the restored
scope is live again, so usage recorded by a patched completion call outside
any capture accumulates into it and is what the next stop_capture returns
(see the counterexample). -/
theorem stop_capture_inactive (c : Ctx) (h : c.prev = none) :
    stopCapture c = (getAgg c, ⟨some [], none⟩) := by
  simp [stopCapture, h]

/-- C10 witness: stop_capture on the fresh context returns the empty mapping,
and on the dirty no-capture state reached in the counterexample returns the
usage recorded there. -/
theorem stop_capture_inactive_witness :
    stopCapture ⟨none, none⟩ = (([] : Scope), ⟨some [], none⟩)
    ∧ stopCapture ⟨some [("m", 5, 5)], none⟩ = ([("m", 5, 5)], ⟨some [], none⟩) :=
  ⟨stop_capture_inactive ⟨none, none⟩ rfl,
   stop_capture_inactive ⟨some [("m", 5, 5)], none⟩ rfl⟩

/-! ## Pricing and cost estimation (cost.py)

The pricing table _load_pricing_data builds (model → per-100-token input
price, output price, currency) is a parameter here; prices are ℚ so the
arithmetic of estimate_openai_cost is exact. -/

abbrev Pricing := List (String × ℚ × ℚ × String)

/-- Python dict lookup pricing.get(m) / m in pricing. -/
def pricingFind (p : Pricing) (m : String) : Option (ℚ × ℚ × String) :=
  (p.find? (fun e => e.1 = m)).map (fun e => e.2)

/-- Whether the first character list is an initial segment of the second. -/
def leadsWith : List Char → List Char → Bool
  | [], _ => true
  | _ :: _, [] => false
  | a :: as, b :: bs => a == b && leadsWith as bs

/-- Whether the first character list occurs contiguously inside the second. -/
def occursIn (needle : List Char) : List Char → Bool
  | [] => needle.isEmpty
  | c :: rest => leadsWith needle (c :: rest) || occursIn needle rest

/-- Python substring test: needle in hay. -/
def strContains (hay needle : String) : Bool :=
  occursIn needle.toList hay.toList

/-- The hard-coded ultimate-fallback gpt-4o-mini prices
(0.000015, 0.00006, USD per 100 tokens) in estimate_openai_cost. -/
def defaultPricing : ℚ × ℚ × String := (15 / 1000000, 6 / 100000, "USD")

/-- The price-resolution cascade inside estimate_openai_cost: exact lookup,
else the fragment tests for gpt-4o-mini then gpt-4o, else
pricing.get("gpt-4o-mini", hard-coded default). -/
def resolvePricing (pricing : Pricing) (model : String) : ℚ × ℚ × String :=
  match pricingFind pricing model with
  | some pr => pr
  | none =>
    let fallback_model : Option String :=
      if strContains model "gpt-4o-mini" then some "gpt-4o-mini"
      else if strContains model "gpt-4o" then some "gpt-4o"
      else none
    match fallback_model with
    | some fm =>
      match pricingFind pricing fm with
      | some pr => pr
      | none => (pricingFind pricing "gpt-4o-mini").getD defaultPricing
    | none => (pricingFind pricing "gpt-4o-mini").getD defaultPricing

/-- estimate_openai_cost(model, input_tokens, output_tokens):
per-100-token prices are divided by 100 before multiplying by token counts. -/
def estimate_openai_cost (pricing : Pricing) (model : String)
    (input_tokens output_tokens : Nat) : ℚ × ℚ × ℚ × String :=
  let pr := resolvePricing pricing model
  let ic : ℚ := input_tokens * (pr.1 / 100)
  let oc : ℚ := output_tokens * (pr.2.1 / 100)
  (ic, oc, ic + oc, pr.2.2)

/-- C8: estimate_openai_cost is total (it is a Lean function, so it can
raise nothing), its costs are input_tokens × (input_price ÷ 100) and
output_tokens × (output_price ÷ 100) with total their sum, and the price it
uses is resolved by exact lookup, else by the known model-name fragments
(gpt-4o-mini before its substring gpt-4o), else by falling back to the
gpt-4o-mini entry of the table (hard-coded gpt-4o-mini prices when even that
entry is missing). -/
theorem estimate_openai_cost_spec (pricing : Pricing) (model : String)
    (it ot : Nat) :
    estimate_openai_cost pricing model it ot
      = ((it : ℚ) * ((resolvePricing pricing model).1 / 100),
         (ot : ℚ) * ((resolvePricing pricing model).2.1 / 100),
         (it : ℚ) * ((resolvePricing pricing model).1 / 100)
           + (ot : ℚ) * ((resolvePricing pricing model).2.1 / 100),
         (resolvePricing pricing model).2.2)
    ∧ (∀ pr, pricingFind pricing model = some pr → resolvePricing pricing model = pr)
    ∧ (pricingFind pricing model = none → strContains model "gpt-4o-mini" = true →
        resolvePricing pricing model
          = (pricingFind pricing "gpt-4o-mini").getD defaultPricing)
    ∧ (pricingFind pricing model = none → strContains model "gpt-4o-mini" = false →
        strContains model "gpt-4o" = true →
        resolvePricing pricing model
          = (pricingFind pricing "gpt-4o").getD
              ((pricingFind pricing "gpt-4o-mini").getD defaultPricing))
    ∧ (pricingFind pricing model = none → strContains model "gpt-4o-mini" = false →
        strContains model "gpt-4o" = false →
        resolvePricing pricing model
          = (pricingFind pricing "gpt-4o-mini").getD defaultPricing) := by
  refine ⟨rfl, ?_, ?_, ?_, ?_⟩
  · intro pr h
    simp [resolvePricing, h]
  · intro h hm
    cases hfind : pricingFind pricing "gpt-4o-mini" with
    | none => simp [resolvePricing, h, hm, hfind]
    | some pr => simp [resolvePricing, h, hm, hfind]
  · intro h hm h4
    cases hfind : pricingFind pricing "gpt-4o" with
    | none => simp [resolvePricing, h, hm, h4, hfind]
    | some pr => simp [resolvePricing, h, hm, h4, hfind]
  · intro h hm h4
    simp [resolvePricing, h, hm, h4]

/-- C8 witness: estimate over the empty pricing table for the unknown model
unknown-model-xyz with 1000/1000 tokens falls back to the hard-coded
gpt-4o-mini prices and returns the per-100-token formula values. -/
theorem estimate_openai_cost_witness :
    pricingFind [] "unknown-model-xyz" = none
    ∧ strContains "unknown-model-xyz" "gpt-4o-mini" = false
    ∧ strContains "unknown-model-xyz" "gpt-4o" = false
    ∧ resolvePricing [] "unknown-model-xyz" = defaultPricing
    ∧ estimate_openai_cost [] "unknown-model-xyz" 1000 1000
        = (1000 * ((15 : ℚ) / 1000000 / 100), 1000 * ((6 : ℚ) / 100000 / 100),
           1000 * ((15 : ℚ) / 1000000 / 100) + 1000 * ((6 : ℚ) / 100000 / 100),
           "USD") := by
  have h := estimate_openai_cost_spec [] "unknown-model-xyz" 1000 1000
  refine ⟨rfl, by decide, by decide, ?_, ?_⟩
  · have h5 := h.2.2.2.2 rfl (by decide) (by decide)
    rw [h5]; rfl
  · have h5 := h.2.2.2.2 rfl (by decide) (by decide)
    rw [h.1, h5]
    simp [pricingFind, defaultPricing]

/-! ## Cost events, the registry and the execution path (registry.py, cost.py)

Python exceptions are PyErr values; the implementation of a tool is
represented by the completion-call token records it makes plus its outcome;
the append of one line to the cost log files is an event appended to a list,
together with a failure oracle logFail standing for a possible IO error of
the write. Ghost counters starts / stops / implCalls count the calls of
start_capture, stop_capture and the implementation. -/

inductive PyErr where
  | keyError : String → PyErr
  | validationError : String → PyErr
  | attributeError : PyErr
  | exc : Nat → PyErr
deriving DecidableEq, Repr

/-- CostEvent (cost.py); the fields _log_llm_costs in registry.py fills
(meta is always empty there; the date stamp and the file serialization added
by log_cost are not needed by any claim). -/
structure CostEvent where
  ts : ℚ
  tool : String
  model : String
  input_tokens : Nat
  output_tokens : Nat
  currency : String
  input_cost : ℚ
  output_cost : ℚ
  total_cost : ℚ
deriving DecidableEq, Repr

/-- ToolSpec (registry.py): validate is the pydantic input_model construction
over the keyword arguments, impl the wrapped function fn. -/
structure ToolSpec (κ ι ρ : Type) where
  name : String
  tags : List String
  validate : κ → Except PyErr ι
  impl : ι → List (String × Nat × Nat) × Except PyErr ρ

/-- Observable process state threaded through one synchronous invocation:
the registry mapping, the calling task's instrumentation context, the
monkey-patch flag, the appended cost events, and the ghost call counters. -/
structure World (κ ι ρ : Type) where
  registry : String → Option (ToolSpec κ ι ρ)
  ctx : Ctx
  patched : Bool
  events : List CostEvent
  starts : Nat
  stops : Nat
  implCalls : Nat

/-- The effect of an implementation's completion-call records on the calling
context: the wrapped create records usage only when the patch is installed. -/
def applyRecords (patched : Bool) (rs : List (String × Nat × Nat)) (c : Ctx) : Ctx :=
  if patched then rs.foldl (fun a r => recordUsage a r.1 r.2.1 r.2.2) c else c

/-- log_cost(event): no-op when cost logging is disabled; otherwise append one
line (or raise the IO error the oracle assigns to this event). -/
def log_cost (enabled : Bool) (logFail : CostEvent → Option PyErr)
    (e : CostEvent) (events : List CostEvent) : Except PyErr (List CostEvent) :=
  if enabled then
    match logFail e with
    | some err => .error err
    | none => .ok (events ++ [e])
  else .ok events

/-- The CostEvent rows _log_llm_costs builds from a stopped scope. -/
def logRows (pricing : Pricing) (ts : ℚ) (tool : String) (agg : Scope) :
    List CostEvent :=
  agg.map (fun r =>
    let est := estimate_openai_cost pricing r.1 r.2.1 r.2.2
    { ts := ts, tool := tool, model := r.1,
      input_tokens := r.2.1, output_tokens := r.2.2,
      currency := est.2.2.2, input_cost := est.1, output_cost := est.2.1,
      total_cost := est.2.2.1 })

/-- The for-loop of _log_llm_costs: append each event until one write raises;
events already written stay written. -/
def logEventsLoop (enabled : Bool) (logFail : CostEvent → Option PyErr) :
    List CostEvent → List CostEvent → List CostEvent × Option PyErr
  | [], events => (events, none)
  | e :: rest, events =>
    match log_cost enabled logFail e events with
    | .error err => (events, some err)
    | .ok evs => logEventsLoop enabled logFail rest evs

/-- _log_llm_costs(start_time, tool_name): return at once when cost logging is
disabled (before stopping the scope!); otherwise stop the capture scope and
log one CostEvent per model of the stopped aggregation. -/
def logLLMCosts {κ ι ρ : Type} (enabled : Bool) (logFail : CostEvent → Option PyErr)
    (pricing : Pricing) (ts : ℚ) (tool : String) (w : World κ ι ρ) :
    Option PyErr × World κ ι ρ :=
  if enabled then
    let r := stopCapture w.ctx
    let w2 := { w with ctx := r.2, stops := w.stops + 1 }
    let lg := logEventsLoop enabled logFail (logRows pricing ts tool r.1) w2.events
    (lg.2, { w2 with events := lg.1 })
  else (none, w)

/-- _execute_with_llm_tracking(fn, model_instance, spec), the synchronous
path: non-llm tools run directly; llm-tagged tools run inside
ensure_openai_patched + start_capture, with _log_llm_costs called in the try
body after a normal return and in the except handler before re-raising.
An exception of _log_llm_costs inside the try body is itself caught by the
except handler, which then runs _log_llm_costs a second time and re-raises;
an exception of _log_llm_costs inside the handler replaces the one being
handled. -/
def execWithLLMTracking {κ ι ρ : Type} (enabled : Bool)
    (logFail : CostEvent → Option PyErr) (pricing : Pricing) (ts : ℚ)
    (spec : ToolSpec κ ι ρ) (input : ι) (w : World κ ι ρ) :
    Except PyErr ρ × World κ ι ρ :=
  if "llm" ∈ spec.tags then
    let w1 := { w with patched := true }
    let w2 := { w1 with ctx := startCapture w1.ctx, starts := w1.starts + 1 }
    let run := spec.impl input
    let w3 := { w2 with ctx := applyRecords true run.1 w2.ctx, implCalls := w2.implCalls + 1 }
    match run.2 with
    | .ok r =>
      match logLLMCosts enabled logFail pricing ts spec.name w3 with
      | (none, w4) => (.ok r, w4)
      | (some l1, w4) =>
        match logLLMCosts enabled logFail pricing ts spec.name w4 with
        | (none, w5) => (.error l1, w5)
        | (some l2, w5) => (.error l2, w5)
    | .error e =>
      match logLLMCosts enabled logFail pricing ts spec.name w3 with
      | (none, w4) => (.error e, w4)
      | (some l, w4) => (.error l, w4)
  else
    let run := spec.impl input
    (run.2, { w with ctx := applyRecords w.patched run.1 w.ctx, implCalls := w.implCalls + 1 })

/-- get_tool_spec(name): plain dict lookup, raising KeyError when absent. -/
def get_tool_spec {κ ι ρ : Type} (w : World κ ι ρ) (name : String) :
    Except PyErr (ToolSpec κ ι ρ) :=
  match w.registry name with
  | none => .error (.keyError name)
  | some spec => .ok spec

/-- invoke_tool(name, kwargs): look the spec up, build the validated input
object, then execute with llm tracking. -/
def invoke_tool {κ ι ρ : Type} (enabled : Bool)
    (logFail : CostEvent → Option PyErr) (pricing : Pricing) (ts : ℚ)
    (name : String) (kwargs : κ) (w : World κ ι ρ) :
    Except PyErr ρ × World κ ι ρ :=
  match get_tool_spec w name with
  | .error e => (.error e, w)
  | .ok spec =>
    match spec.validate kwargs with
    | .error e => (.error e, w)
    | .ok input => execWithLLMTracking enabled logFail pricing ts spec input w

/-! ### Execution-path lemmas -/

theorem foldRecordUsage (rs : List (String × Nat × Nat)) (s : Scope) (p : Option Scope) :
    applyRecords true rs ⟨some s, p⟩ = ⟨some (aggAppend s rs), p⟩ := by
  induction rs generalizing s with
  | nil => simp [applyRecords, aggAppend]
  | cons r rs ih =>
      have h := ih (scopeAdd s r.1 r.2.1 r.2.2)
      simp only [applyRecords, List.foldl_cons, recordUsage] at h ⊢
      simpa [aggAppend] using h

theorem logEventsLoop_none (logFail : CostEvent → Option PyErr)
    (h : ∀ ev, logFail ev = none) (rows events : List CostEvent) :
    logEventsLoop true logFail rows events = (events ++ rows, none) := by
  induction rows generalizing events with
  | nil => simp [logEventsLoop]
  | cons e rest ih => simp [logEventsLoop, log_cost, h e, ih]

theorem logLLMCosts_none {κ ι ρ : Type} (logFail : CostEvent → Option PyErr)
    (pricing : Pricing) (ts : ℚ) (tool : String) (w : World κ ι ρ)
    (h : ∀ ev, logFail ev = none) :
    logLLMCosts true logFail pricing ts tool w
      = (none, { w with ctx := (stopCapture w.ctx).2, stops := w.stops + 1,
                        events := w.events ++ logRows pricing ts tool (getAgg w.ctx) }) := by
  simp [logLLMCosts, logEventsLoop_none logFail h, stopCapture]

theorem logLLMCosts_disabled {κ ι ρ : Type} (logFail : CostEvent → Option PyErr)
    (pricing : Pricing) (ts : ℚ) (tool : String) (w : World κ ι ρ) :
    logLLMCosts false logFail pricing ts tool w = (none, w) := rfl

/-- After start_capture and the implementation's records, the active scope is
exactly the aggregation of those records. -/
theorem applyRecords_startCapture (rs : List (String × Nat × Nat)) (c : Ctx) :
    applyRecords true rs (startCapture c)
      = ⟨some (aggOf rs), (startCapture c).prev⟩ := by
  obtain ⟨pv, hpv⟩ : ∃ pv, startCapture c = ⟨some [], pv⟩ := ⟨_, rfl⟩
  rw [hpv]
  exact foldRecordUsage rs [] pv

/-! ### Sample registries for witnesses and counterexamples -/

def noLogFail : CostEvent → Option PyErr := fun _ => none

def failLog : CostEvent → Option PyErr := fun _ => some (.exc 99)

/-- An llm-tagged tool whose implementation records one completion call of
(3, 4) tokens for model m and then raises exception 7. -/
def llmRaisingSpec : ToolSpec Unit Unit Unit :=
  { name := "t", tags := ["llm"], validate := fun _ => .ok (),
    impl := fun _ => ([("m", 3, 4)], .error (.exc 7)) }

def llmWorld : World Unit Unit Unit :=
  { registry := fun n => if n = "t" then some llmRaisingSpec else none,
    ctx := ⟨none, none⟩, patched := false, events := [],
    starts := 0, stops := 0, implCalls := 0 }

/-- An untagged echo tool returning its input unchanged. -/
def echoSpec : ToolSpec String String String :=
  { name := "echo", tags := [], validate := fun s => .ok s,
    impl := fun s => ([], .ok s) }

def echoWorld : World String String String :=
  { registry := fun n => if n = "echo" then some echoSpec else none,
    ctx := ⟨none, none⟩, patched := false, events := [],
    starts := 0, stops := 0, implCalls := 0 }

/-! ### Claim theorems on the execution path -/

/-- C5: invoking a name absent from the registry raises the KeyError
not-found condition from the dict lookup, both through invoke_tool and
through get_tool_spec; the whole world — registry mapping and cost-event
log included — is returned unchanged, so no CostEvent is ever logged for
such a call. -/
theorem invoke_tool_unregistered {κ ι ρ : Type} (enabled : Bool)
    (logFail : CostEvent → Option PyErr) (pricing : Pricing) (ts : ℚ)
    (name : String) (kwargs : κ) (w : World κ ι ρ)
    (h : w.registry name = none) :
    invoke_tool enabled logFail pricing ts name kwargs w
      = (.error (.keyError name), w)
    ∧ get_tool_spec w name = (.error (.keyError name) : Except PyErr (ToolSpec κ ι ρ))
    ∧ (invoke_tool enabled logFail pricing ts name kwargs w).2.events = w.events
    ∧ (invoke_tool enabled logFail pricing ts name kwargs w).2.registry = w.registry := by
  have hg : get_tool_spec w name = (.error (.keyError name) : Except PyErr (ToolSpec κ ι ρ)) := by
    simp [get_tool_spec, h]
  have hmain : invoke_tool enabled logFail pricing ts name kwargs w
      = (.error (.keyError name), w) := by
    simp [invoke_tool, hg]
  exact ⟨hmain, hg, by rw [hmain], by rw [hmain]⟩

/-- C5 witness: invoking the name missing on an empty registry. -/
theorem invoke_tool_unregistered_witness :
    invoke_tool (κ := Unit) (ι := Unit) (ρ := Unit) true noLogFail [] 0 "missing" ()
        { registry := fun _ => none, ctx := ⟨none, none⟩, patched := false,
          events := [], starts := 0, stops := 0, implCalls := 0 }
      = (.error (.keyError "missing"),
         { registry := fun _ => none, ctx := ⟨none, none⟩, patched := false,
           events := [], starts := 0, stops := 0, implCalls := 0 }) :=
  (invoke_tool_unregistered true noLogFail [] 0 "missing" () _ rfl).1

/-- C6: when the pydantic input-model construction rejects the keyword
arguments, invoke_tool propagates that ValidationError unmodified, the world
is unchanged, and the implementation is never executed (ghost call count
unchanged). -/
theorem invoke_tool_validation_error {κ ι ρ : Type} (enabled : Bool)
    (logFail : CostEvent → Option PyErr) (pricing : Pricing) (ts : ℚ)
    (name : String) (kwargs : κ) (w : World κ ι ρ) (spec : ToolSpec κ ι ρ)
    (msg : String)
    (h1 : w.registry name = some spec)
    (h2 : spec.validate kwargs = .error (.validationError msg)) :
    invoke_tool enabled logFail pricing ts name kwargs w
      = (.error (.validationError msg), w)
    ∧ (invoke_tool enabled logFail pricing ts name kwargs w).2.implCalls = w.implCalls := by
  have hg : get_tool_spec w name = .ok spec := by simp [get_tool_spec, h1]
  have hmain : invoke_tool enabled logFail pricing ts name kwargs w
      = (.error (.validationError msg), w) := by
    simp [invoke_tool, hg, h2]
  exact ⟨hmain, by rw [hmain]⟩

/-- C6 witness: a tool whose validator rejects every input. -/
theorem invoke_tool_validation_error_witness :
    invoke_tool (κ := Unit) (ι := Unit) (ρ := Unit) true noLogFail [] 0 "strict" ()
        { registry := fun n => if n = "strict" then
            some { name := "strict", tags := [],
                   validate := fun _ => .error (.validationError "missing field"),
                   impl := fun _ => ([], .ok ()) } else none,
          ctx := ⟨none, none⟩, patched := false, events := [],
          starts := 0, stops := 0, implCalls := 0 }
      = (.error (.validationError "missing field"),
         { registry := fun n => if n = "strict" then
             some { name := "strict", tags := [],
                    validate := fun _ => .error (.validationError "missing field"),
                    impl := fun _ => ([], .ok ()) } else none,
           ctx := ⟨none, none⟩, patched := false, events := [],
           starts := 0, stops := 0, implCalls := 0 }) :=
  (invoke_tool_validation_error true noLogFail [] 0 "strict" () _ _ "missing field"
    rfl rfl).1

/-- C7: a registered tool without the llm tag, on schema-valid arguments, runs
its implementation exactly once on the validated input and its result or
exception is passed through unchanged; no capture scope is started or stopped
and no CostEvent is logged. (The implementation's own completion calls still
feed whatever scope was already active, through the records effect.) -/
theorem invoke_tool_non_llm {κ ι ρ : Type} (enabled : Bool)
    (logFail : CostEvent → Option PyErr) (pricing : Pricing) (ts : ℚ)
    (name : String) (kwargs : κ) (w : World κ ι ρ) (spec : ToolSpec κ ι ρ)
    (input : ι)
    (h1 : w.registry name = some spec)
    (h2 : "llm" ∉ spec.tags)
    (h3 : spec.validate kwargs = .ok input) :
    invoke_tool enabled logFail pricing ts name kwargs w
      = ((spec.impl input).2,
         { w with ctx := applyRecords w.patched (spec.impl input).1 w.ctx,
                  implCalls := w.implCalls + 1 })
    ∧ (invoke_tool enabled logFail pricing ts name kwargs w).2.events = w.events
    ∧ (invoke_tool enabled logFail pricing ts name kwargs w).2.starts = w.starts
    ∧ (invoke_tool enabled logFail pricing ts name kwargs w).2.stops = w.stops
    ∧ (invoke_tool enabled logFail pricing ts name kwargs w).2.implCalls
        = w.implCalls + 1 := by
  have hg : get_tool_spec w name = .ok spec := by simp [get_tool_spec, h1]
  have hmain : invoke_tool enabled logFail pricing ts name kwargs w
      = ((spec.impl input).2,
         { w with ctx := applyRecords w.patched (spec.impl input).1 w.ctx,
                  implCalls := w.implCalls + 1 }) := by
    simp [invoke_tool, hg, h3, execWithLLMTracking, h2]
  exact ⟨hmain, by rw [hmain], by rw [hmain], by rw [hmain], by rw [hmain]⟩

/-- C7 witness: the untagged echo tool returns its input and logs nothing. -/
theorem invoke_tool_non_llm_witness :
    invoke_tool true noLogFail [] 0 "echo" "hi" echoWorld
      = (.ok "hi", { echoWorld with implCalls := 1 })
    ∧ (invoke_tool true noLogFail [] 0 "echo" "hi" echoWorld).2.events = [] := by
  have h := invoke_tool_non_llm true noLogFail [] 0 "echo" "hi" echoWorld echoSpec "hi"
    rfl (by simp [echoSpec]) rfl
  exact ⟨h.1, h.2.1⟩

/-- C1 counterexample: an llm-tagged implementation raises exception 7 after
recording token usage, and the append of the CostEvent raises exception 99;
the exception reaching the caller is 99, the logging failure, not the
original 7 — the except handler's unguarded _log_llm_costs call masks the
implementation's exception. -/
theorem llm_raise_logging_masks_cex :
    (invoke_tool true failLog [] 0 "t" () llmWorld).1 = .error (.exc 99)
    ∧ (.error (.exc 99) : Except PyErr Unit) ≠ .error (.exc 7) := by
  refine ⟨rfl, ?_⟩
  simp

/-- C1 (amended): if an llm-tagged implementation raises after recording
token usage and the cost-log appends themselves succeed (and cost logging is
enabled), then the CostEvents carrying the observed per-model counts are
appended to the log and the original exception reaches the caller. (When an
append raises, its exception replaces the original — see the
counterexample.) -/
theorem llm_raise_logs_then_reraises {κ ι ρ : Type}
    (logFail : CostEvent → Option PyErr) (pricing : Pricing) (ts : ℚ)
    (name : String) (kwargs : κ) (w : World κ ι ρ) (spec : ToolSpec κ ι ρ)
    (input : ι) (recs : List (String × Nat × Nat)) (e : PyErr)
    (h1 : w.registry name = some spec)
    (h2 : spec.validate kwargs = .ok input)
    (h3 : "llm" ∈ spec.tags)
    (h4 : spec.impl input = (recs, .error e))
    (h5 : ∀ ev, logFail ev = none) :
    (invoke_tool true logFail pricing ts name kwargs w).1 = .error e
    ∧ (invoke_tool true logFail pricing ts name kwargs w).2.events
        = w.events ++ logRows pricing ts spec.name (aggOf recs) := by
  have hg : get_tool_spec w name = .ok spec := by simp [get_tool_spec, h1]
  have hrec := applyRecords_startCapture recs w.ctx
  have hlog := logLLMCosts_none (κ := κ) (ι := ι) (ρ := ρ) logFail pricing ts spec.name
  constructor <;>
    simp [invoke_tool, hg, h2, execWithLLMTracking, h3, h4, hrec, hlog _ h5, getAgg]

/-- C1 witness: the raising llm tool with every log append succeeding — the
original exception 7 propagates and the CostEvent for model m with counts
(3, 4) is logged. -/
theorem llm_raise_logs_then_reraises_witness :
    (invoke_tool true noLogFail [] 0 "t" () llmWorld).1 = .error (.exc 7)
    ∧ (invoke_tool true noLogFail [] 0 "t" () llmWorld).2.events
        = logRows [] 0 "t" [("m", 3, 4)] := by
  have h := llm_raise_logs_then_reraises noLogFail [] 0 "t" () llmWorld llmRaisingSpec
    () [("m", 3, 4)] (.exc 7) rfl rfl (by simp [llmRaisingSpec]) rfl (fun _ => rfl)
  refine ⟨h.1, ?_⟩
  rw [h.2]
  rfl

/-- C4 counterexample: with cost logging disabled, invoking an llm-tagged
tool starts a capture scope but never stops it — _log_llm_costs returns
before its stop_capture call — so the stop count is 0, not the 1 the claim
requires for every invocation regardless of the cost-logging setting. -/
theorem llm_scope_disabled_no_stop_cex :
    (invoke_tool false noLogFail [] 0 "t" () llmWorld).2.starts = 1
    ∧ (invoke_tool false noLogFail [] 0 "t" () llmWorld).2.stops = 0
    ∧ (0 : Nat) ≠ 1 := by
  refine ⟨rfl, rfl, by simp⟩

/-- C4 (amended): for an llm-tagged tool, when cost logging is enabled and the
log appends succeed, the capture scope the engine starts is stopped exactly
once per invocation — whether the implementation returns normally or raises —
and the CostEvents appended are computed from the scope as closed; when cost
logging is disabled the scope is never stopped and nothing is logged. -/
theorem llm_scope_stop_once {κ ι ρ : Type}
    (logFail : CostEvent → Option PyErr) (pricing : Pricing) (ts : ℚ)
    (name : String) (kwargs : κ) (w : World κ ι ρ) (spec : ToolSpec κ ι ρ)
    (input : ι)
    (h1 : w.registry name = some spec)
    (h2 : spec.validate kwargs = .ok input)
    (h3 : "llm" ∈ spec.tags)
    (h5 : ∀ ev, logFail ev = none) :
    (invoke_tool true logFail pricing ts name kwargs w).2.stops = w.stops + 1
    ∧ (invoke_tool true logFail pricing ts name kwargs w).2.events
        = w.events ++ logRows pricing ts spec.name (aggOf (spec.impl input).1)
    ∧ (invoke_tool false logFail pricing ts name kwargs w).2.stops = w.stops
    ∧ (invoke_tool false logFail pricing ts name kwargs w).2.events = w.events := by
  have hg : get_tool_spec w name = .ok spec := by simp [get_tool_spec, h1]
  have hrec := applyRecords_startCapture (spec.impl input).1 w.ctx
  have hlog := logLLMCosts_none (κ := κ) (ι := ι) (ρ := ρ) logFail pricing ts spec.name
  refine ⟨?_, ?_, ?_, ?_⟩ <;>
  · cases hout : (spec.impl input).2 <;>
      simp [invoke_tool, hg, h2, execWithLLMTracking, h3, hout, hrec, hlog _ h5,
        logLLMCosts_disabled, getAgg]

/-- C4 witness: the raising llm tool, cost logging enabled with succeeding
appends versus disabled. -/
theorem llm_scope_stop_once_witness :
    (invoke_tool true noLogFail [] 0 "t" () llmWorld).2.stops = 1
    ∧ (invoke_tool false noLogFail [] 0 "t" () llmWorld).2.stops = 0 := by
  have h := llm_scope_stop_once noLogFail [] 0 "t" () llmWorld llmRaisingSpec ()
    rfl rfl (by simp [llmRaisingSpec]) (fun _ => rfl)
  exact ⟨h.1, h.2.2.1⟩

/-! ## Aggregate queries over the date-partitioned logs (cost.py)

A day of the scan is none when its log file is missing (os.path.exists false:
skipped) and some lines when it exists. json.loads plus field extraction of
one line has three outcomes: the decoding raises JSONDecodeError — the only
exception the per-line arm catches, so the line is skipped; the decoding
succeeds but yields a non-object, so the subsequent event.get raises an
AttributeError that nothing in either scan catches (the outer arm catches
only IOError/OSError) and the whole scan aborts; or the line is an object,
giving a row with the or-0 numeric defaulting of absent fields folded in
(objects carrying non-numeric cost/token values, which would likewise raise
uncaught at the += steps, are outside this model — the non-object case
already exhibits the abort path). Python dicts keyed by model / tool are
insertion-ordered association lists, the models set of list_recent_tool_usage
an insertion-ordered deduplicated list. -/

/-- One successfully decoded object line, with the field defaults applied. -/
structure UsageRow where
  tool : Option String
  model : Option String
  total_cost : ℚ
  input_tokens : Nat
  output_tokens : Nat
deriving DecidableEq, Repr

/-- The outcome of json.loads on one log line: badJson when loads raises
JSONDecodeError, nonObj when it returns a non-object (event.get then raises
an uncaught AttributeError), obj with the extracted fields otherwise. -/
inductive JLine where
  | badJson : JLine
  | nonObj : JLine
  | obj : UsageRow → JLine
deriving DecidableEq, Repr

/-- Whether json.loads succeeds on the line. -/
def decodes (parse : String → JLine) (l : String) : Bool :=
  match parse l with
  | .badJson => false
  | _ => true

/-- The running totals of get_tool_cost_stats. -/
structure ToolStatsAcc where
  total_calls : Nat
  total_cost : ℚ
  total_input_tokens : Nat
  total_output_tokens : Nat
  models_used : List (String × Nat × ℚ)
deriving DecidableEq, Repr

def initStats : ToolStatsAcc :=
  { total_calls := 0, total_cost := 0, total_input_tokens := 0,
    total_output_tokens := 0, models_used := [] }

/-- models_used bookkeeping: per-model call count and cost. -/
def bumpModel (ms : List (String × Nat × ℚ)) (m : String) (cost : ℚ) :
    List (String × Nat × ℚ) :=
  if ms.any (fun p => p.1 = m) then
    ms.map (fun p => if p.1 = m then (p.1, p.2.1 + 1, p.2.2 + cost) else p)
  else ms ++ [(m, 1, cost)]

def bumpStats (row : UsageRow) (st : ToolStatsAcc) : ToolStatsAcc :=
  { total_calls := st.total_calls + 1
    total_cost := st.total_cost + row.total_cost
    total_input_tokens := st.total_input_tokens + row.input_tokens
    total_output_tokens := st.total_output_tokens + row.output_tokens
    models_used := bumpModel st.models_used (row.model.getD "unknown") row.total_cost }

/-- One line of the get_tool_cost_stats scan: an undecodable line is skipped
(except json.JSONDecodeError: continue), a decodable non-object raises
AttributeError at event.get — caught nowhere — and an object line counts when
its tool field matches. -/
def scanLineStats (parse : String → JLine) (tool : String)
    (st : ToolStatsAcc) (line : String) : Except PyErr ToolStatsAcc :=
  match parse line with
  | .badJson => .ok st
  | .nonObj => .error .attributeError
  | .obj row => .ok (if row.tool = some tool then bumpStats row st else st)

def foldLinesStats (parse : String → JLine) (tool : String) :
    List String → ToolStatsAcc → Except PyErr ToolStatsAcc
  | [], st => .ok st
  | l :: rest, st =>
    match scanLineStats parse tool st l with
    | .error e => .error e
    | .ok st2 => foldLinesStats parse tool rest st2

/-- One day of the scan: a missing log file contributes nothing. -/
def scanDayStats (parse : String → JLine) (tool : String)
    (st : ToolStatsAcc) (day : Option (List String)) : Except PyErr ToolStatsAcc :=
  match day with
  | none => .ok st
  | some lines => foldLinesStats parse tool lines st

def foldDaysStats (parse : String → JLine) (tool : String) :
    List (Option (List String)) → ToolStatsAcc → Except PyErr ToolStatsAcc
  | [], st => .ok st
  | d :: rest, st =>
    match scanDayStats parse tool st d with
    | .error e => .error e
    | .ok st2 => foldDaysStats parse tool rest st2

/-- get_tool_cost_stats(tool_name, days): scan the trailing days and compute
totals and averages (averages 0 when no calls); an uncaught per-line error
aborts the whole call. -/
def get_tool_cost_stats (parse : String → JLine) (tool : String)
    (days : List (Option (List String))) : Except PyErr (ToolStatsAcc × ℚ × ℚ × ℚ) :=
  match foldDaysStats parse tool days initStats with
  | .error e => .error e
  | .ok st =>
    .ok (if st.total_calls > 0 then
      (st, st.total_cost / st.total_calls,
        (st.total_input_tokens : ℚ) / st.total_calls,
        (st.total_output_tokens : ℚ) / st.total_calls)
    else (st, 0, 0, 0))

/-- The running per-tool record of list_recent_tool_usage. -/
structure UsageAcc where
  calls : Nat
  total_cost : ℚ
  total_tokens : Nat
  models : List String
deriving DecidableEq, Repr

def addModelSet (ms : List String) (m : String) : List String :=
  if ms.contains m then ms else ms ++ [m]

def bumpUsage (row : UsageRow) (u : UsageAcc) : UsageAcc :=
  { calls := u.calls + 1
    total_cost := u.total_cost + row.total_cost
    total_tokens := u.total_tokens + (row.input_tokens + row.output_tokens)
    models :=
      match row.model with
      | none => u.models
      | some m => if m = "" then u.models else addModelSet u.models m }

def bumpTool (ts : List (String × UsageAcc)) (tname : String) (row : UsageRow) :
    List (String × UsageAcc) :=
  if ts.any (fun p => p.1 = tname) then
    ts.map (fun p => if p.1 = tname then (p.1, bumpUsage row p.2) else p)
  else ts ++ [(tname, bumpUsage row
    { calls := 0, total_cost := 0, total_tokens := 0, models := [] })]

/-- One line of the list_recent_tool_usage scan: undecodable lines skipped,
decodable non-objects raise the uncaught AttributeError, object lines with no
(or falsy) tool field skipped. -/
def scanLineUsage (parse : String → JLine)
    (ts : List (String × UsageAcc)) (line : String) :
    Except PyErr (List (String × UsageAcc)) :=
  match parse line with
  | .badJson => .ok ts
  | .nonObj => .error .attributeError
  | .obj row =>
    .ok (match row.tool with
         | none => ts
         | some tname => if tname = "" then ts else bumpTool ts tname row)

def foldLinesUsage (parse : String → JLine) :
    List String → List (String × UsageAcc) → Except PyErr (List (String × UsageAcc))
  | [], ts => .ok ts
  | l :: rest, ts =>
    match scanLineUsage parse ts l with
    | .error e => .error e
    | .ok ts2 => foldLinesUsage parse rest ts2

def scanDayUsage (parse : String → JLine)
    (ts : List (String × UsageAcc)) (day : Option (List String)) :
    Except PyErr (List (String × UsageAcc)) :=
  match day with
  | none => .ok ts
  | some lines => foldLinesUsage parse lines ts

def foldDaysUsage (parse : String → JLine) :
    List (Option (List String)) → List (String × UsageAcc) →
      Except PyErr (List (String × UsageAcc))
  | [], ts => .ok ts
  | d :: rest, ts =>
    match scanDayUsage parse ts d with
    | .error e => .error e
    | .ok ts2 => foldDaysUsage parse rest ts2

/-- list_recent_tool_usage(days): the grouped scan with per-tool averages
appended afterwards (0 when no calls); an uncaught per-line error aborts the
whole call. -/
def list_recent_tool_usage (parse : String → JLine)
    (days : List (Option (List String))) :
    Except PyErr (List (String × UsageAcc × ℚ × ℚ)) :=
  match foldDaysUsage parse days [] with
  | .error e => .error e
  | .ok ts =>
    .ok (ts.map (fun p =>
      if p.2.calls > 0 then
        (p.1, p.2, p.2.total_cost / p.2.calls, (p.2.total_tokens : ℚ) / p.2.calls)
      else (p.1, p.2, 0, 0)))

/-- A log with the lines whose JSON decoding fails removed. -/
def dropUndecodable (parse : String → JLine)
    (days : List (Option (List String))) : List (Option (List String)) :=
  days.map (Option.map (List.filter (decodes parse)))

theorem foldLinesStats_filter (parse : String → JLine) (tool : String)
    (lines : List String) (st : ToolStatsAcc) :
    foldLinesStats parse tool (lines.filter (decodes parse)) st
      = foldLinesStats parse tool lines st := by
  induction lines generalizing st with
  | nil => rfl
  | cons l rest ih =>
      cases hp : parse l with
      | badJson =>
          simp [List.filter_cons, decodes, hp, foldLinesStats, scanLineStats, ih]
      | nonObj =>
          simp [List.filter_cons, decodes, hp, foldLinesStats, scanLineStats]
      | obj row =>
          simp [List.filter_cons, decodes, hp, foldLinesStats, scanLineStats, ih]

theorem foldLinesUsage_filter (parse : String → JLine)
    (lines : List String) (ts : List (String × UsageAcc)) :
    foldLinesUsage parse (lines.filter (decodes parse)) ts
      = foldLinesUsage parse lines ts := by
  induction lines generalizing ts with
  | nil => rfl
  | cons l rest ih =>
      cases hp : parse l with
      | badJson =>
          simp [List.filter_cons, decodes, hp, foldLinesUsage, scanLineUsage, ih]
      | nonObj =>
          simp [List.filter_cons, decodes, hp, foldLinesUsage, scanLineUsage]
      | obj row =>
          simp [List.filter_cons, decodes, hp, foldLinesUsage, scanLineUsage, ih]

theorem foldDaysStats_drop (parse : String → JLine) (tool : String)
    (days : List (Option (List String))) (st : ToolStatsAcc) :
    foldDaysStats parse tool (dropUndecodable parse days) st
      = foldDaysStats parse tool days st := by
  induction days generalizing st with
  | nil => rfl
  | cons d rest ih =>
      have hd : scanDayStats parse tool st (Option.map (List.filter (decodes parse)) d)
          = scanDayStats parse tool st d := by
        cases d with
        | none => rfl
        | some lines => simp [scanDayStats, foldLinesStats_filter]
      simp only [dropUndecodable, List.map_cons, foldDaysStats] at ih ⊢
      rw [hd]
      cases hres : scanDayStats parse tool st d with
      | error e => rfl
      | ok st2 => exact ih st2

theorem foldDaysUsage_drop (parse : String → JLine)
    (days : List (Option (List String))) (ts : List (String × UsageAcc)) :
    foldDaysUsage parse (dropUndecodable parse days) ts
      = foldDaysUsage parse days ts := by
  induction days generalizing ts with
  | nil => rfl
  | cons d rest ih =>
      have hd : scanDayUsage parse ts (Option.map (List.filter (decodes parse)) d)
          = scanDayUsage parse ts d := by
        cases d with
        | none => rfl
        | some lines => simp [scanDayUsage, foldLinesUsage_filter]
      simp only [dropUndecodable, List.map_cons, foldDaysUsage] at ih ⊢
      rw [hd]
      cases hres : scanDayUsage parse ts d with
      | error e => rfl
      | ok ts2 => exact ih ts2

theorem foldDaysStats_append (parse : String → JLine) (tool : String)
    (xs ys : List (Option (List String))) (st : ToolStatsAcc) :
    foldDaysStats parse tool (xs ++ ys) st
      = (foldDaysStats parse tool xs st).bind (foldDaysStats parse tool ys) := by
  induction xs generalizing st with
  | nil => simp [foldDaysStats, Except.bind]
  | cons d rest ih =>
      simp only [List.cons_append, foldDaysStats]
      cases hres : scanDayStats parse tool st d with
      | error e => simp [Except.bind]
      | ok st2 => exact ih st2

theorem foldDaysUsage_append (parse : String → JLine)
    (xs ys : List (Option (List String))) (ts : List (String × UsageAcc)) :
    foldDaysUsage parse (xs ++ ys) ts
      = (foldDaysUsage parse xs ts).bind (foldDaysUsage parse ys) := by
  induction xs generalizing ts with
  | nil => simp [foldDaysUsage, Except.bind]
  | cons d rest ih =>
      simp only [List.cons_append, foldDaysUsage]
      cases hres : scanDayUsage parse ts d with
      | error e => simp [Except.bind]
      | ok ts2 => exact ih ts2

/-- C9 counterexample: a log whose first line decodes to a non-object (e.g.
the line null) followed by a well-formed line. Both scans abort with the
uncaught AttributeError raised at event.get — only JSONDecodeError is caught
per line — so one bad line does abort the scan and the well-formed line of
the same file goes uncounted, contradicting the claim. -/
theorem log_scan_abort_cex :
    get_tool_cost_stats
        (fun l => if l = "null" then .nonObj
          else if l = "good" then
            .obj { tool := some "t", model := some "m", total_cost := 1,
                   input_tokens := 2, output_tokens := 3 }
          else .badJson)
        "t" [some ["null", "good"]]
      = .error .attributeError
    ∧ list_recent_tool_usage
        (fun l => if l = "null" then .nonObj
          else if l = "good" then
            .obj { tool := some "t", model := some "m", total_cost := 1,
                   input_tokens := 2, output_tokens := 3 }
          else .badJson)
        [some ["null", "good"]]
      = .error .attributeError
    ∧ (Except.error PyErr.attributeError :
        Except PyErr (ToolStatsAcc × ℚ × ℚ × ℚ)) ≠ .ok (initStats, 0, 0, 0) := by
  refine ⟨rfl, rfl, ?_⟩
  simp

/-- C9 (amended): each line whose JSON decoding fails is skipped individually
by both aggregate scans — an undecodable line never aborts a scan and every
well-formed line of the same file still counts, so the results equal those on
the logs with undecodable lines pre-removed — and a missing log file for a
day contributes exactly as much as an existing empty one: zero events, no
error. (A line that decodes to a non-object still aborts the whole scan,
since only JSONDecodeError is caught per line — see the counterexample.) -/
theorem log_scan_robust (parse : String → JLine) (tool : String) :
    (∀ days : List (Option (List String)),
      get_tool_cost_stats parse tool days
        = get_tool_cost_stats parse tool (dropUndecodable parse days))
    ∧ (∀ days : List (Option (List String)),
      list_recent_tool_usage parse days
        = list_recent_tool_usage parse (dropUndecodable parse days))
    ∧ (∀ pre post : List (Option (List String)),
      get_tool_cost_stats parse tool (pre ++ none :: post)
        = get_tool_cost_stats parse tool (pre ++ some [] :: post))
    ∧ (∀ pre post : List (Option (List String)),
      list_recent_tool_usage parse (pre ++ none :: post)
        = list_recent_tool_usage parse (pre ++ some [] :: post)) := by
  refine ⟨?_, ?_, ?_, ?_⟩
  · intro days
    unfold get_tool_cost_stats
    rw [foldDaysStats_drop]
  · intro days
    unfold list_recent_tool_usage
    rw [foldDaysUsage_drop]
  · intro pre post
    unfold get_tool_cost_stats
    rw [foldDaysStats_append, foldDaysStats_append]
    have h : ∀ st : ToolStatsAcc,
        foldDaysStats parse tool (none :: post) st
          = foldDaysStats parse tool (some [] :: post) st := by
      intro st; rfl
    cases foldDaysStats parse tool pre initStats with
    | error e => rfl
    | ok st => simp [Except.bind, h st]
  · intro pre post
    unfold list_recent_tool_usage
    rw [foldDaysUsage_append, foldDaysUsage_append]
    have h : ∀ ts : List (String × UsageAcc),
        foldDaysUsage parse (none :: post) ts
          = foldDaysUsage parse (some [] :: post) ts := by
      intro ts; rfl
    cases foldDaysUsage parse pre [] with
    | error e => rfl
    | ok ts => simp [Except.bind, h ts]

end Ag3
